import Mathlib

/-!
Shallow embedding of the `bevy_svg` vertex-buffer merge engine, mesh
assembly, vertex constructors and asset-loader error paths
(`src/render/vertex_buffer.rs`, `src/loader.rs`), together with theorems
settling the specification claims about them.

Machine integers: the index type of the buffers is Rust `u32`; it is
modelled as `Nat` with explicit reduction modulo `2 ^ 32` exactly where the
Rust code casts (`as u32`) or performs `u32` arithmetic (wrapping).
Floating-point scalars of positions and colors are modelled as `ℚ`: none of
the verified operations performs arithmetic on them except the externally
supplied transform application, which is modelled from the spec.
-/

/-- Modulus of Rust's `u32` type. -/
def u32Mod : Nat := 2 ^ 32

/-- A 3-component position, modelling `[f32; 3]`. -/
abbrev Pos3 : Type := ℚ × ℚ × ℚ

/-- A 4-component RGBA color, modelling `[f32; 4]`. -/
abbrev Col4 : Type := ℚ × ℚ × ℚ × ℚ

/-- Embeds `Vertex` from `src/render/vertex_buffer.rs`: a position and a
color, all the attributes needed to be inserted into a mesh. -/
structure Vertex where
  position : Pos3
  color : Col4
deriving DecidableEq, Repr

/-- Embeds lyon's `VertexBuffers<Vertex, u32>` (the crate's `VertexBuffers`
alias): a vertex list and an index list.  Indices are `u32` values,
modelled as `Nat`; all operations of the source produce values `< 2 ^ 32`. -/
structure VertexBuffers where
  vertices : List Vertex
  indices : List Nat
deriving DecidableEq, Repr

/-- The empty buffer pair. -/
def emptyBuffers : VertexBuffers := { vertices := [], indices := [] }

/-- Embeds `BufferExt::extend_one` from `src/render/vertex_buffer.rs`:
records `offset = self.vertices.len() as u32`, appends the item's vertices,
and appends each of the item's indices as the `u32` sum `i + offset`. -/
def extend_one (dest item : VertexBuffers) : VertexBuffers :=
  let offset := dest.vertices.length % u32Mod
  { vertices := dest.vertices ++ item.vertices
    indices := dest.indices ++ item.indices.map (fun i => (i + offset) % u32Mod) }

/-- Embeds the loop body of `BufferExt::extend` from
`src/render/vertex_buffer.rs`: for each source buffer, append its vertices,
append its indices shifted by the current `u32` offset, then increase the
offset by the source's vertex count (`u32` wrapping addition of
`buf.vertices.len() as u32`). -/
def extendLoop (dest : VertexBuffers) (offset : Nat) : List VertexBuffers → VertexBuffers
  | [] => dest
  | buf :: rest =>
      extendLoop
        { vertices := dest.vertices ++ buf.vertices
          indices := dest.indices ++ buf.indices.map (fun i => (i + offset) % u32Mod) }
        ((offset + buf.vertices.length % u32Mod) % u32Mod)
        rest

/-- Embeds `BufferExt::extend` from `src/render/vertex_buffer.rs`: the
running offset starts as `self.vertices.len() as u32` and the sources are
processed in order by `extendLoop`. -/
def extend (dest : VertexBuffers) (srcs : List VertexBuffers) : VertexBuffers :=
  extendLoop dest (dest.vertices.length % u32Mod) srcs

/-- The buffer-pair validity invariant: every index refers to an existing
vertex of the same pair. -/
def validBuffers (vb : VertexBuffers) : Prop :=
  ∀ i ∈ vb.indices, i < vb.vertices.length

instance (vb : VertexBuffers) : Decidable (validBuffers vb) :=
  List.decidableBAll _ vb.indices

/-- Total vertex count of a list of source buffer pairs. -/
def totalVertices (srcs : List VertexBuffers) : Nat :=
  (srcs.map (fun s => s.vertices.length)).sum

/-- Index lists of a list of source buffer pairs, each rebased by a running
offset that starts at `off` and grows by each source's vertex count; the
mathematical (non-wrapping) reading of the bulk-append contract. -/
def rebaseFrom (off : Nat) : List VertexBuffers → List Nat
  | [] => []
  | s :: rest => s.indices.map (fun i => i + off) ++ rebaseFrom (off + s.vertices.length) rest

theorem extendLoop_vertices (srcs : List VertexBuffers) :
    ∀ (dest : VertexBuffers) (off : Nat),
      (extendLoop dest off srcs).vertices =
        dest.vertices ++ (srcs.map VertexBuffers.vertices).flatten := by
  induction srcs with
  | nil => intro dest off; simp [extendLoop]
  | cons buf rest ih =>
      intro dest off
      simp [extendLoop, ih, List.append_assoc]

theorem extendLoop_eq_foldl (srcs : List VertexBuffers) :
    ∀ dest : VertexBuffers,
      extendLoop dest (dest.vertices.length % u32Mod) srcs =
        List.foldl extend_one dest srcs := by
  induction srcs with
  | nil => intro dest; rfl
  | cons buf rest ih =>
      intro dest
      show extendLoop _ _ _ = List.foldl extend_one (extend_one dest buf) rest
      rw [← ih (extend_one dest buf)]
      have hoff : ((dest.vertices.length % u32Mod + buf.vertices.length % u32Mod) % u32Mod)
          = (extend_one dest buf).vertices.length % u32Mod := by
        simp [extend_one, List.length_append, Nat.add_mod]
      simp only [extendLoop, extend_one]
      rw [hoff]
      rfl

theorem totalVertices_cons (s : VertexBuffers) (rest : List VertexBuffers) :
    totalVertices (s :: rest) = s.vertices.length + totalVertices rest := by
  simp [totalVertices]

theorem extend_one_length (dest item : VertexBuffers) :
    (extend_one dest item).vertices.length =
      dest.vertices.length + item.vertices.length := by
  simp [extend_one]

/-- Sample vertex used by concrete witnesses. -/
def vA : Vertex := { position := (0, 0, 0), color := (1, 1, 1, 1) }

/-- Sample destination buffer pair with two vertices, used by witnesses. -/
def destW : VertexBuffers := { vertices := [vA, vA], indices := [0, 1] }

/-- Sample source buffer pair with three vertices and indices `[0, 1, 2]`,
used by witnesses. -/
def itemW : VertexBuffers := { vertices := [vA, vA, vA], indices := [0, 1, 2] }

/-- C1: `extend_one` appends the source's vertices unchanged and appends
each source index `i` as `i + n`, where `n` is the destination's vertex
count evaluated before appending (stated under the no-`u32`-overflow side
condition under which the `u32` sum is the mathematical sum). -/
theorem claim_C1_extend_one_offsets (dest item : VertexBuffers)
    (hno : ∀ i ∈ item.indices, dest.vertices.length + i < u32Mod) :
    (extend_one dest item).vertices = dest.vertices ++ item.vertices ∧
    (extend_one dest item).indices =
      dest.indices ++ item.indices.map (fun i => i + dest.vertices.length) := by
  refine ⟨rfl, ?_⟩
  show dest.indices ++
      item.indices.map (fun i => (i + dest.vertices.length % u32Mod) % u32Mod) = _
  congr 1
  apply List.map_congr_left
  intro i hi
  have h := hno i hi
  have hd : dest.vertices.length < u32Mod := by omega
  rw [Nat.mod_eq_of_lt hd, Nat.mod_eq_of_lt (by omega)]

theorem claim_C1_witness :
    (∀ i ∈ itemW.indices, destW.vertices.length + i < u32Mod) ∧
    ((extend_one destW itemW).vertices = destW.vertices ++ itemW.vertices ∧
     (extend_one destW itemW).indices =
       destW.indices ++ itemW.indices.map (fun i => i + destW.vertices.length)) :=
  ⟨by decide, claim_C1_extend_one_offsets destW itemW (by decide)⟩

/-- C4: bulk-extending the empty destination with `[A, B]` yields the same
vertex list and index list as `extend_one` with `A` followed by
`extend_one` with `B`. -/
theorem claim_C4_bulk_eq_sequential (A B : VertexBuffers) :
    (extend emptyBuffers [A, B]).vertices =
      (extend_one (extend_one emptyBuffers A) B).vertices ∧
    (extend emptyBuffers [A, B]).indices =
      (extend_one (extend_one emptyBuffers A) B).indices := by
  have h : extend emptyBuffers [A, B] = extend_one (extend_one emptyBuffers A) B := by
    show extendLoop _ _ _ = _
    rw [extendLoop_eq_foldl]
    rfl
  exact ⟨by rw [h], by rw [h]⟩

/-- C7: merging an empty source leaves the destination unchanged, both for
`extend_one` and as one element of a bulk `extend`, where it also leaves
the running offset unchanged for the remaining sources. -/
theorem claim_C7_empty_source_identity (dest : VertexBuffers) (off : Nat)
    (rest : List VertexBuffers) (hoff : off < u32Mod) :
    extend_one dest emptyBuffers = dest ∧
    extendLoop dest off (emptyBuffers :: rest) = extendLoop dest off rest := by
  obtain ⟨vs, is⟩ := dest
  constructor
  · simp [extend_one, emptyBuffers]
  · simp [extendLoop, emptyBuffers, Nat.mod_eq_of_lt hoff]

theorem claim_C7_witness :
    (5 < u32Mod) ∧
    (extend_one destW emptyBuffers = destW ∧
     extendLoop destW 5 (emptyBuffers :: [itemW]) = extendLoop destW 5 [itemW]) :=
  ⟨by decide, claim_C7_empty_source_identity destW 5 [itemW] (by decide)⟩

/-- C10: in `extend_one` and in bulk `extend` the offset is the
destination's vertex count taken modulo `2 ^ 32` (the `as u32` cast) and
index rebasing is wrapping `u32` addition, so every appended index is the
mathematical sum reduced modulo `2 ^ 32`, silently, with no check or
rejection; concretely, a source index `2 ^ 32 - 1` appended after one
existing vertex wraps around to `0` under both operations. -/
theorem claim_C10_u32_wraparound :
    (∀ dest item : VertexBuffers,
        (extend_one dest item).indices =
          dest.indices ++
            item.indices.map (fun i => (i + dest.vertices.length) % u32Mod)) ∧
    (∀ dest s1 s2 : VertexBuffers,
        (extend dest [s1, s2]).indices =
          dest.indices ++
            s1.indices.map (fun i => (i + dest.vertices.length) % u32Mod) ++
            s2.indices.map
              (fun i => (i + dest.vertices.length + s1.vertices.length) % u32Mod)) ∧
    (extend_one { vertices := [vA], indices := [0] }
        { vertices := [], indices := [u32Mod - 1] }).indices = [0, 0] ∧
    (extend { vertices := [vA], indices := [0] }
        [{ vertices := [], indices := [u32Mod - 1] }]).indices = [0, 0] := by
  refine ⟨?_, ?_, ?_, ?_⟩
  · intro dest item
    show dest.indices ++
        item.indices.map (fun i => (i + dest.vertices.length % u32Mod) % u32Mod) = _
    congr 1
    apply List.map_congr_left
    intro i _
    exact Nat.add_mod_mod i dest.vertices.length u32Mod
  · intro dest s1 s2
    show (extendLoop _ _ _).indices = _
    simp only [extendLoop, List.append_assoc]
    congr 1
    congr 1
    · apply List.map_congr_left
      intro i _
      exact Nat.add_mod_mod i dest.vertices.length u32Mod
    · apply List.map_congr_left
      intro i _
      simp only [u32Mod] at *
      omega
  · decide
  · decide

theorem extendLoop_indices_nowrap (srcs : List VertexBuffers) :
    ∀ (dest : VertexBuffers) (off : Nat),
      off + totalVertices srcs < u32Mod →
      (∀ s ∈ srcs, ∀ i ∈ s.indices, i + off + totalVertices srcs < u32Mod) →
      (extendLoop dest off srcs).indices = dest.indices ++ rebaseFrom off srcs := by
  induction srcs with
  | nil => intro dest off _ _; simp [extendLoop, rebaseFrom]
  | cons s rest ih =>
      intro dest off hoff hidx
      have htot : totalVertices (s :: rest) = s.vertices.length + totalVertices rest :=
        totalVertices_cons s rest
      have hslen : s.vertices.length % u32Mod = s.vertices.length :=
        Nat.mod_eq_of_lt (by omega)
      have hoff2 : (off + s.vertices.length) % u32Mod = off + s.vertices.length :=
        Nat.mod_eq_of_lt (by omega)
      show (extendLoop _ ((off + s.vertices.length % u32Mod) % u32Mod) rest).indices = _
      rw [hslen, hoff2]
      rw [ih _ (off + s.vertices.length) (by omega) ?_]
      · have hmap : s.indices.map (fun i => (i + off) % u32Mod)
            = s.indices.map (fun i => i + off) := by
          apply List.map_congr_left
          intro i hi
          have := hidx s (List.mem_cons_self s rest) i hi
          exact Nat.mod_eq_of_lt (by omega)
        show (dest.indices ++ s.indices.map (fun i => (i + off) % u32Mod))
            ++ rebaseFrom (off + s.vertices.length) rest = _
        rw [hmap, List.append_assoc]
        rfl
      · intro s' hs' i hi
        have := hidx s' (List.mem_cons_of_mem s hs') i hi
        omega

/-- C2: bulk `extend` processes the sources in order with a running offset
that starts at the destination's vertex count and grows by each source's
vertex count: it appends all vertices in order and appends every source's
indices shifted by the offset current when that source is processed
(stated under the no-`u32`-overflow side conditions that make wrapping
arithmetic agree with the mathematical sums). -/
theorem claim_C2_bulk_running_offset (dest : VertexBuffers) (srcs : List VertexBuffers)
    (hV : dest.vertices.length + totalVertices srcs < u32Mod)
    (hI : ∀ s ∈ srcs, ∀ i ∈ s.indices,
        i + dest.vertices.length + totalVertices srcs < u32Mod) :
    (extend dest srcs).vertices =
      dest.vertices ++ (srcs.map VertexBuffers.vertices).flatten ∧
    (extend dest srcs).indices =
      dest.indices ++ rebaseFrom dest.vertices.length srcs := by
  have hd : dest.vertices.length % u32Mod = dest.vertices.length :=
    Nat.mod_eq_of_lt (by omega)
  constructor
  · exact extendLoop_vertices srcs dest _
  · show (extendLoop dest (dest.vertices.length % u32Mod) srcs).indices = _
    rw [hd]
    exact extendLoop_indices_nowrap srcs dest dest.vertices.length hV hI

/-- Second sample source buffer pair, used by witnesses of bulk claims. -/
def itemW2 : VertexBuffers := { vertices := [vA], indices := [0, 0, 0] }

theorem claim_C2_witness :
    (destW.vertices.length + totalVertices [itemW, itemW2] < u32Mod ∧
     (∀ s ∈ [itemW, itemW2], ∀ i ∈ s.indices,
        i + destW.vertices.length + totalVertices [itemW, itemW2] < u32Mod)) ∧
    ((extend destW [itemW, itemW2]).vertices =
       destW.vertices ++ ([itemW, itemW2].map VertexBuffers.vertices).flatten ∧
     (extend destW [itemW, itemW2]).indices =
       destW.indices ++ rebaseFrom destW.vertices.length [itemW, itemW2]) :=
  ⟨⟨by decide, by decide⟩,
   claim_C2_bulk_running_offset destW [itemW, itemW2] (by decide) (by decide)⟩

theorem valid_extend_one (dest item : VertexBuffers)
    (hd : validBuffers dest) (hi : validBuffers item)
    (hlen : dest.vertices.length + item.vertices.length < u32Mod) :
    validBuffers (extend_one dest item) := by
  intro i him
  rw [show (extend_one dest item).indices
      = dest.indices ++ item.indices.map
          (fun j => (j + dest.vertices.length % u32Mod) % u32Mod) from rfl] at him
  rw [show (extend_one dest item).vertices.length
      = dest.vertices.length + item.vertices.length from extend_one_length dest item]
  rcases List.mem_append.1 him with h | h
  · have := hd i h
    omega
  · obtain ⟨j, hj, rfl⟩ := List.mem_map.1 h
    have hjlt := hi j hj
    have h1 : dest.vertices.length % u32Mod = dest.vertices.length :=
      Nat.mod_eq_of_lt (by omega)
    rw [h1, Nat.mod_eq_of_lt (by omega)]
    omega

theorem valid_foldl (srcs : List VertexBuffers) :
    ∀ dest : VertexBuffers,
      validBuffers dest → (∀ s ∈ srcs, validBuffers s) →
      dest.vertices.length + totalVertices srcs < u32Mod →
      validBuffers (List.foldl extend_one dest srcs) := by
  induction srcs with
  | nil => intro dest hd _ _; exact hd
  | cons s rest ih =>
      intro dest hd hs hlen
      have htot := totalVertices_cons s rest
      show validBuffers (List.foldl extend_one (extend_one dest s) rest)
      apply ih
      · exact valid_extend_one dest s hd (hs s (List.mem_cons_self s rest)) (by omega)
      · intro s' hs'
        exact hs s' (List.mem_cons_of_mem s hs')
      · rw [extend_one_length]
        omega

/-- C3: merging valid buffer pairs with `extend_one` or bulk `extend`
yields a valid buffer pair — every index of the result is strictly below
the result's vertex count — assuming no `u32` index overflow. -/
theorem claim_C3_validity_preserved (dest item : VertexBuffers)
    (srcs : List VertexBuffers) :
    (validBuffers dest → validBuffers item →
      dest.vertices.length + item.vertices.length < u32Mod →
      validBuffers (extend_one dest item)) ∧
    (validBuffers dest → (∀ s ∈ srcs, validBuffers s) →
      dest.vertices.length + totalVertices srcs < u32Mod →
      validBuffers (extend dest srcs)) := by
  constructor
  · exact valid_extend_one dest item
  · intro hd hs hlen
    show validBuffers (extendLoop dest (dest.vertices.length % u32Mod) srcs)
    rw [extendLoop_eq_foldl]
    exact valid_foldl srcs dest hd hs hlen

theorem claim_C3_witness :
    validBuffers (extend_one destW itemW) ∧ validBuffers (extend destW [itemW, itemW2]) :=
  ⟨(claim_C3_validity_preserved destW itemW [itemW, itemW2]).1
      (by decide) (by decide) (by decide),
   (claim_C3_validity_preserved destW itemW [itemW, itemW2]).2
      (by decide) (by decide) (by decide)⟩

/-- Modelled from the spec: the renderer's primitive topology (bevy's
`PrimitiveTopology`, external to the sources at hand); only the
triangle-list variant is produced. -/
inductive PrimitiveTopology where
  | pointList
  | lineList
  | triangleList
deriving DecidableEq, Repr

/-- Modelled from the spec: the renderer-facing mesh (bevy's `Mesh`,
external to the sources at hand): triangle-list topology, a position
attribute, a color attribute, and a 32-bit index list. -/
structure Mesh where
  topology : PrimitiveTopology
  indices : List Nat
  positions : List Pos3
  colors : List Col4
deriving DecidableEq, Repr

/-- Embeds `Convert<Mesh> for VertexBuffers::convert` from
`src/render/vertex_buffer.rs`: project each vertex's position and color
into two parallel attribute arrays, create a triangle-list mesh, and set
its index list to the buffer pair's index list unchanged. -/
def convert (vb : VertexBuffers) : Mesh :=
  let positions := vb.vertices.map Vertex.position
  let colors := vb.vertices.map Vertex.color
  { topology := PrimitiveTopology.triangleList
    indices := vb.indices
    positions := positions
    colors := colors }

/-- C6: mesh assembly is total and structure-preserving: triangle-list
topology, attribute lengths equal to the vertex count, pointwise
projections of the vertex fields, the index list passed through unchanged
(hence in range for a valid input), and the empty pair giving the empty
mesh. -/
theorem claim_C6_mesh_assembly (vb : VertexBuffers) :
    (convert vb).topology = PrimitiveTopology.triangleList ∧
    (convert vb).positions.length = vb.vertices.length ∧
    (convert vb).colors.length = vb.vertices.length ∧
    (∀ k : Nat, (convert vb).positions[k]? = vb.vertices[k]?.map Vertex.position) ∧
    (∀ k : Nat, (convert vb).colors[k]? = vb.vertices[k]?.map Vertex.color) ∧
    (convert vb).indices = vb.indices ∧
    (validBuffers vb → ∀ i ∈ (convert vb).indices, i < (convert vb).positions.length) ∧
    ((convert emptyBuffers).positions = [] ∧ (convert emptyBuffers).colors = [] ∧
      (convert emptyBuffers).indices = []) := by
  refine ⟨rfl, ?_, ?_, ?_, ?_, rfl, ?_, rfl, rfl, rfl⟩
  · simp [convert]
  · simp [convert]
  · intro k
    simp [convert]
  · intro k
    simp [convert]
  · intro hvalid i hi
    have h := hvalid i hi
    simpa [convert] using h

theorem claim_C6_witness :
    validBuffers destW ∧
    (∀ i ∈ (convert destW).indices, i < (convert destW).positions.length) :=
  ⟨by decide, (claim_C6_mesh_assembly destW).2.2.2.2.2.2.1 (by decide)⟩

/-- Modelled from the spec: bevy's `Transform` (external to the sources at
hand), "a fixed affine 3D transform", applied by "standard 3D affine
transform application (matrix-vector product including translation)": a
3-by-3 matrix given by rows together with a translation vector. -/
structure Transform where
  row0 : Pos3
  row1 : Pos3
  row2 : Pos3
  translation : Pos3
deriving DecidableEq, Repr

/-- Modelled from the spec: application of a `Transform` to a 3D point,
the matrix-vector product plus the translation (`self.transform * Vec3`
in the source). -/
def transformApply (t : Transform) (v : Pos3) : Pos3 :=
  (t.row0.1 * v.1 + t.row0.2.1 * v.2.1 + t.row0.2.2 * v.2.2 + t.translation.1,
   t.row1.1 * v.1 + t.row1.2.1 * v.2.1 + t.row1.2.2 * v.2.2 + t.translation.2.1,
   t.row2.1 * v.1 + t.row2.2.1 * v.2.1 + t.row2.2.2 * v.2.2 + t.translation.2.2)

/-- Modelled from the spec: bevy's `Color` (external to the sources at
hand); color abstractions are out of scope "beyond a linear RGBA
quadruple", so a color is its four linear channels and
`as_linear_rgba_f32` yields that quadruple. -/
structure Color where
  red : ℚ
  green : ℚ
  blue : ℚ
  alpha : ℚ
deriving DecidableEq, Repr

/-- Modelled from the spec: conversion of a `Color` "to a linear-space
4-float representation" (`Color::as_linear_rgba_f32` in the source). -/
def Color.as_linear_rgba_f32 (c : Color) : Col4 :=
  (c.red, c.green, c.blue, c.alpha)

/-- Modelled from the spec: lyon's `FillVertex` (external to the sources
at hand), of which only the 2D `position()` is consumed. -/
structure FillVertex where
  position : ℚ × ℚ
deriving DecidableEq, Repr

/-- Modelled from the spec: lyon's `StrokeVertex` (external to the sources
at hand), of which only the 2D `position()` is consumed. -/
structure StrokeVertex where
  position : ℚ × ℚ
deriving DecidableEq, Repr

/-- Embeds `VertexConstructor` from `src/render/vertex_buffer.rs`: the
fixed color and transform context used for every vertex of one shape. -/
structure VertexConstructor where
  color : Color
  transform : Transform
deriving DecidableEq, Repr

/-- Embeds `FillVertexConstructor<Vertex> for VertexConstructor`'s
`new_vertex` from `src/render/vertex_buffer.rs`: extend the fill point to
3D as `(x, y, 0)`, apply the fixed transform, and pair the result with the
fixed color converted to linear RGBA. -/
def fill_new_vertex (self : VertexConstructor) (vertex : FillVertex) : Vertex :=
  let v := vertex.position
  let pos := transformApply self.transform (v.1, v.2, 0)
  { position := pos, color := self.color.as_linear_rgba_f32 }

/-- Embeds `StrokeVertexConstructor<Vertex> for VertexConstructor`'s
`new_vertex` from `src/render/vertex_buffer.rs`: extend the stroke point
to 3D as `(x, y, 0)`, apply the fixed transform, and pair the result with
the fixed color converted to linear RGBA. -/
def stroke_new_vertex (self : VertexConstructor) (vertex : StrokeVertex) : Vertex :=
  let v := vertex.position
  let pos := transformApply self.transform (v.1, v.2, 0)
  { position := pos, color := self.color.as_linear_rgba_f32 }

/-- C5: for the same 2D point and the same fixed (color, transform)
context, the fill-vertex constructor and the stroke-vertex constructor
produce the identical `Vertex`, whose position is the transform applied to
`(x, y, 0)` and whose color is the context color converted to a
linear-space RGBA quadruple. -/
theorem claim_C5_constructors_agree (ctx : VertexConstructor) (x y : ℚ) :
    fill_new_vertex ctx { position := (x, y) } =
      stroke_new_vertex ctx { position := (x, y) } ∧
    (fill_new_vertex ctx { position := (x, y) }).position =
      transformApply ctx.transform (x, y, 0) ∧
    (fill_new_vertex ctx { position := (x, y) }).color =
      ctx.color.as_linear_rgba_f32 :=
  ⟨rfl, rfl, rfl⟩

/-- Modelled from the spec: `usvg::Error` (external to the sources at
hand), the opaque cause reported by the geometry-parsing library. -/
structure UsvgError where
  message : String
deriving DecidableEq, Repr

/-- Embeds `SvgError` from `src/loader.rs`: either the invalid-file-name
error carrying the offending path string, or a wrapped upstream `usvg`
error. -/
inductive SvgError where
  | invalidFileName (s : String)
  | svgError (e : UsvgError)
deriving DecidableEq, Repr

/-- Embeds `FileSvgError` from `src/loader.rs`: an `SvgError` together
with the offending path. -/
structure FileSvgError where
  error : SvgError
  path : String
deriving DecidableEq, Repr

/-- Modelled from the spec: the load context's path-like identity string.
`display` is the full path string used for diagnostics and `fileName`
models the standard library's filename-component extraction, absent when
the path "has no extractable filename component". -/
structure PathLike where
  display : String
  fileName : Option String
deriving DecidableEq, Repr

/-- Modelled from the spec: the `Svg` document record (defined in the
crate's `svg` module, which is not among the sources at hand); only the
derived name is tracked here, the scene-graph content stays opaque. -/
structure Svg where
  name : String
deriving DecidableEq, Repr

/-- Modelled from the spec: `Svg::from_bytes` (defined in the crate's
`svg` module, which is not among the sources at hand); an upstream parse
failure is "wrapped with the offending path and propagated verbatim to
the caller". -/
def svgFromBytes (parseOutcome : Except UsvgError Svg) (path : PathLike) :
    Except FileSvgError Svg :=
  match parseOutcome with
  | Except.ok svg => Except.ok svg
  | Except.error e =>
      Except.error { error := SvgError.svgError e, path := path.display }

/-- Embeds `SvgAssetLoader::load` from `src/loader.rs`: parse the bytes
via `Svg::from_bytes`, propagating its failure with `?`; derive the name
from the path's filename component, failing with
`SvgError::InvalidFileName` wrapped in a `FileSvgError` that carries the
path string; store the name, tessellate (the tessellator is the externally
supplied `Svg::tessellate`), and return the named document with its mesh.
-/
def load (parseOutcome : Except UsvgError Svg) (tessellate : Svg → Mesh)
    (path : PathLike) : Except FileSvgError (Svg × Mesh) :=
  match svgFromBytes parseOutcome path with
  | Except.error e => Except.error e
  | Except.ok svg =>
      match path.fileName with
      | none =>
          Except.error
            { error := SvgError.invalidFileName path.display, path := path.display }
      | some name =>
          let named : Svg := { svg with name := name }
          Except.ok (named, tessellate named)

/-- C8: when parsing succeeds but the path has no extractable filename
component, `load` fails with the typed invalid-file-name error carrying
the offending path string — no crash and no silent default name. -/
theorem claim_C8_missing_filename (parseOutcome : Except UsvgError Svg)
    (tessellate : Svg → Mesh) (path : PathLike) (svg : Svg)
    (hparse : parseOutcome = Except.ok svg) (hname : path.fileName = none) :
    load parseOutcome tessellate path =
      Except.error
        { error := SvgError.invalidFileName path.display, path := path.display } := by
  subst hparse
  simp [load, svgFromBytes, hname]

/-- Trivial tessellator used by concrete loader witnesses. -/
def tessW : Svg → Mesh := fun _ => convert emptyBuffers

/-- Concrete root-like path with no filename component, used by witnesses. -/
def pathW : PathLike := { display := "/", fileName := none }

/-- Concrete parsed document, used by witnesses. -/
def svgW : Svg := { name := "" }

theorem claim_C8_witness :
    ((Except.ok svgW : Except UsvgError Svg) = Except.ok svgW ∧
      pathW.fileName = none) ∧
    load (Except.ok svgW) tessW pathW =
      Except.error
        { error := SvgError.invalidFileName pathW.display, path := pathW.display } :=
  ⟨⟨rfl, rfl⟩, claim_C8_missing_filename (Except.ok svgW) tessW pathW svgW rfl rfl⟩

/-- C9: when the external parsing step reports a failure, `load` returns
the error wrapping the underlying cause together with the offending path,
propagated to the caller unchanged — nothing is swallowed and nothing is
retried. -/
theorem claim_C9_parse_failure_propagated (e : UsvgError)
    (tessellate : Svg → Mesh) (path : PathLike) :
    load (Except.error e) tessellate path =
      Except.error { error := SvgError.svgError e, path := path.display } := by
  simp [load, svgFromBytes]
